import Mathlib

/-!
Verification development for the semantic-search subsystem of the product
catalog service (`semantic_search.go`) and its embedding pipeline.

Modelling conventions:
* Machine floating-point vector components (`float32`) are modelled as `ℚ`.
  The claims under study are structural (dimension, determinism, ordering,
  truncation, fallback routing) and do not depend on rounding of individual
  arithmetic operations.
* The external embedding provider (`callVertexAIEmbedding`) is modelled as a
  function `String → Except Unit (List ℚ)`: `Except.error` covers transport
  errors, non-200 statuses and undecodable bodies alike, exactly the cases in
  which the Go function returns a non-nil error.
* The SQL store is modelled as an explicit list of rows, and the native
  pgvector distance operator as an abstract function parameter, since the
  design treats both as external collaborators.
* Go `int` arithmetic overflow wraps modulo 2^64 (two's complement); this is
  made explicit via `wrap64`.
-/

/-- Two's-complement wrap-around of 64-bit signed integer arithmetic
(Go `int` on a 64-bit platform). -/
def wrap64 (x : Int) : Int := (x + 2 ^ 63) % 2 ^ 64 - 2 ^ 63

/-- The per-word hash loop of `generateEmbedding`:
`hash = hash*31 + int(char)` folded over the runes of the word, with 64-bit
wrap-around at every step. -/
def goWordHash (w : String) : Int :=
  w.data.foldl (fun h c => wrap64 (h * 31 + (c.toNat : Int))) 0

/-- Model of `strings.ToLower` (exact on ASCII, which is all the claims
exercise): lower-case every character. -/
def goToLower (s : String) : String := String.mk (s.data.map Char.toLower)

/-- Accumulator-based splitting of a character list around runs of
whitespace, dropping empty fields. -/
def fieldsAux : List Char → List Char → List (List Char)
  | [], acc => if acc = [] then [] else [acc.reverse]
  | c :: cs, acc =>
    if c.isWhitespace then
      (if acc = [] then fieldsAux cs [] else acc.reverse :: fieldsAux cs [])
    else fieldsAux cs (c :: acc)

/-- Model of Go `strings.Fields`: split around runs of whitespace; no empty
words are produced. -/
def goFields (s : String) : List String := (fieldsAux s.data []).map String.mk

/-- One component of the hash-based fallback embedding:
`float32(hash%1000) / 1000.0`, with Go's truncated remainder (`Int.tmod`). -/
def hashComponent (w : String) : ℚ := ((goWordHash w).tmod 1000 : ℚ) / 1000

/-- The hash-based fallback vector built by `generateEmbedding` when the
provider call fails: 768 components, component `i` computed from the `i`-th
word of the lower-cased text, every later component left at zero. -/
def fallbackEmbedding (text : String) : List ℚ :=
  let words := goFields (goToLower text)
  (List.range 768).map fun i =>
    match words[i]? with
    | some w => hashComponent w
    | none => 0

/-- Model of `generateEmbedding`: try the provider; on any failure fall back
to the deterministic hash-based vector. The Go function never reports an
error to its caller. -/
def generateEmbedding (provider : String → Except Unit (List ℚ)) (text : String) : List ℚ :=
  match provider text with
  | Except.ok e => e
  | Except.error _ => fallbackEmbedding text

/-- Round half-up to the nearest integer (`⌊x + 1/2⌋`), the model used for the
`%.6f` formatting of vector components (Go rounds ties to even; no claim
depends on tie behaviour). -/
def ratRoundHalfUp (x : ℚ) : ℤ := Int.fdiv (2 * x.num + (x.den : ℤ)) (2 * (x.den : ℤ))

/-- Rounding of one component to 6 decimal places, the numeric content of
serialising with `%.6f` and re-parsing via the `::vector` cast. -/
def round6 (q : ℚ) : ℚ := (ratRoundHalfUp (q * 1000000) : ℚ) / 1000000

/-- Numeric effect of `embeddingToVectorString` followed by the store's
`::vector` cast: each component rounded to 6 decimal places. -/
def roundVec6 (v : List ℚ) : List ℚ := v.map round6

/-- Left-pad a digit string to 6 characters, for fixed-precision printing. -/
def pad6 (s : String) : String := String.mk (List.replicate (6 - s.length) '0') ++ s

/-- Decimal rendering of one component with exactly six digits after the
point, modelling `fmt.Sprintf` with the fixed-point verb at precision 6. -/
def fmt6 (q : ℚ) : String :=
  let n := ratRoundHalfUp (q * 1000000)
  (if n < 0 then "-" else "") ++ toString (n.natAbs / 1000000) ++ "." ++
    pad6 (toString (n.natAbs % 1000000))

/-- Model of `embeddingToVectorString`: bracketed, comma-separated list of
fixed-precision decimals. -/
def embeddingToVectorString (embedding : List ℚ) : String :=
  "[" ++ String.intercalate "," (embedding.map fmt6) ++ "]"

/-- The five per-record embedding columns of the `products` table. -/
structure EmbeddingSet where
  description_embedding : Option (List ℚ)
  category_embedding : Option (List ℚ)
  combined_embedding : Option (List ℚ)
  target_tags_embedding : Option (List ℚ)
  use_context_embedding : Option (List ℚ)
deriving DecidableEq

/-- The all-absent embedding state of a freshly created record. -/
def emptyEmbeddingSet : EmbeddingSet :=
  { description_embedding := none
  , category_embedding := none
  , combined_embedding := none
  , target_tags_embedding := none
  , use_context_embedding := none }

/-- One row of the `products` table as read by the service: the scanned text
columns plus the embedding columns. -/
structure ProductRow where
  id : String
  name : String
  description : String
  picture : String
  priceCurrencyCode : String
  priceUnits : Int
  priceNanos : Int
  categories : String
  targetTags : String
  useContext : String
  emb : EmbeddingSet
deriving DecidableEq

/-- The decoded `pb.Product` message assembled by the row-scanning loop of
`SemanticSearchProducts`. -/
structure Product where
  id : String
  name : String
  description : String
  picture : String
  currencyCode : String
  units : Int
  nanos : Int
  categories : List String
  targetTags : List String
  useContext : List String
deriving DecidableEq

/-- The `pb.SemanticSearchRequest` message. -/
structure SemanticSearchRequest where
  query : String
  limit : Int
deriving DecidableEq

/-- The `pb.SearchProductsResponse` message. -/
structure SearchProductsResponse where
  results : List Product
deriving DecidableEq

/-- The gRPC status codes the handler can raise. -/
inductive GrpcCode where
  | invalidArgument
  | internal
deriving DecidableEq

/-- Left-brace character, written via its code point. -/
def lbrace : Char := Char.ofNat 123

/-- Right-brace character, written via its code point. -/
def rbrace : Char := Char.ofNat 125

/-- Membership in the cutset of `strings.Trim(s, ...)` as used by the row
decoder (the cutset holds the two brace characters). -/
def isBraceChar (c : Char) : Bool := c = lbrace || c = rbrace

/-- Model of `strings.Trim(s, cutset)` for the brace cutset: drop leading and
trailing brace characters. -/
def goTrimBraces (s : String) : String :=
  String.mk (((s.data.dropWhile isBraceChar).reverse.dropWhile isBraceChar).reverse)

/-- Accumulator-based split of a character list at every separator
occurrence, keeping empty pieces (Go `strings.Split` semantics). -/
def splitOnCharAux (sep : Char) : List Char → List Char → List (List Char)
  | [], acc => [acc.reverse]
  | c :: cs, acc =>
    if c = sep then acc.reverse :: splitOnCharAux sep cs []
    else splitOnCharAux sep cs (c :: acc)

/-- Model of `strings.Split(s, ",")`. -/
def goSplitComma (s : String) : List String := (splitOnCharAux ',' s.data []).map String.mk

/-- The list-field decoding of the scanning loop: an empty column stays an
empty list, otherwise braces are trimmed and the text split at commas. -/
def parseListField (s : String) : List String :=
  if s = "" then [] else goSplitComma (goTrimBraces s)

/-- Reconstruction of one `pb.Product` from a scanned row
(`SemanticSearchProducts`, step 3). -/
def decodeRow (r : ProductRow) : Product :=
  { id := r.id
  , name := r.name
  , description := r.description
  , picture := r.picture
  , currencyCode := r.priceCurrencyCode
  , units := r.priceUnits
  , nanos := r.priceNanos
  , categories := parseListField r.categories
  , targetTags := parseListField r.targetTags
  , useContext := parseListField r.useContext }

/-- The limit normalisation of `SemanticSearchProducts`:
`if limit <= 0 || limit > 50 { limit = 10 }`. -/
def effectiveLimit (l : Int) : Int := if l ≤ 0 ∨ l > 50 then 10 else l

/-- `COALESCE(column <=> query, 1.0)`: a present vector is compared with the
store's distance operator, an absent one contributes the worst-case
distance 1. -/
def coalesceDist (dist : List ℚ → List ℚ → ℚ) (q : List ℚ) : Option (List ℚ) → ℚ
  | some v => dist v q
  | none => 1

/-- The hybrid similarity score of the ranking query:
`COALESCE(combined ⋄ q, 1)·0.6 + COALESCE(target_tags ⋄ q, 1)·0.2 +
COALESCE(use_context ⋄ q, 1)·0.2`. -/
def rowScore (dist : List ℚ → List ℚ → ℚ) (q : List ℚ) (r : ProductRow) : ℚ :=
  coalesceDist dist q r.emb.combined_embedding * (0.6 : ℚ) +
    coalesceDist dist q r.emb.target_tags_embedding * (0.2 : ℚ) +
    coalesceDist dist q r.emb.use_context_embedding * (0.2 : ℚ)

/-- The ranking query of `SemanticSearchProducts`: keep the rows whose
`combined_embedding` is non-null, attach the hybrid score, order ascending
by score, truncate to the limit. -/
def rankRows (dist : List ℚ → List ℚ → ℚ) (rows : List ProductRow) (q : List ℚ)
    (limit : ℕ) : List (ProductRow × ℚ) :=
  (((rows.filter fun r => r.emb.combined_embedding.isSome).map
      fun r => (r, rowScore dist q r)).insertionSort fun a b => a.2 ≤ b.2).take limit

/-- The execution environment of one request: the store handle state, the
provider, the table contents, the store's distance operator, the possible
failure points of the ranking query, and the lexical search capability.
The field `lexical` is modelled from the spec: the catalog's lexical
`SearchProducts` is an external collaborator consumed as the fallback, and
the spec guarantees it always returns a result set. -/
structure Env where
  dbConfigured : Bool
  provider : String → Except Unit (List ℚ)
  rows : List ProductRow
  dist : List ℚ → List ℚ → ℚ
  queryFails : Bool
  scanFails : ProductRow → Bool
  rowsErr : Bool
  lexical : String → List Product

/-- Modelled from the spec: the lexical `SearchProducts` fallback (its code
is an external collaborator of the subsystem); it answers every query with a
result set and never fails. -/
def searchProducts (env : Env) (query : String) : SearchProductsResponse :=
  { results := env.lexical query }

/-- Model of `SemanticSearchProducts`: nil-request guard, fallback to lexical
search when the store is unconfigured, the provider call fails, or the
ranking query errors; otherwise rank, decode (skipping rows that fail to
scan), and raise an internal error exactly when row iteration reports one.
The Go receiver/context nil guards have no counterpart in the model. -/
def semanticSearchProducts (env : Env) (req : Option SemanticSearchRequest) :
    Except GrpcCode SearchProductsResponse :=
  match req with
  | none => Except.error GrpcCode.invalidArgument
  | some r =>
    if env.dbConfigured = false then Except.ok (searchProducts env r.query)
    else
      match env.provider r.query with
      | Except.error _ => Except.ok (searchProducts env r.query)
      | Except.ok qe =>
        if env.queryFails = true then Except.ok (searchProducts env r.query)
        else
          let lim := (effectiveLimit r.limit).toNat
          let ranked := rankRows env.dist env.rows (roundVec6 qe) lim
          let products :=
            (ranked.filter fun pr => env.scanFails pr.1 = false).map fun pr => decodeRow pr.1
          if env.rowsErr = true then Except.error GrpcCode.internal
          else Except.ok { results := products }

/-- The parameter set of the prepared five-column `UPDATE` statement of
`populateEmbeddings`. -/
structure EmbeddingUpdate where
  id : String
  description_embedding : List ℚ
  category_embedding : List ℚ
  combined_embedding : List ℚ
  target_tags_embedding : List ℚ
  use_context_embedding : List ℚ
deriving DecidableEq

/-- The five embeddings computed for one scanned record in the
`populateEmbeddings` loop, including the combined text
`fmt.Sprintf("%s %s %s", name, description, categories)`. -/
def populateRecordUpdate (provider : String → Except Unit (List ℚ)) (r : ProductRow) :
    EmbeddingUpdate :=
  { id := r.id
  , description_embedding := generateEmbedding provider r.description
  , category_embedding := generateEmbedding provider r.categories
  , combined_embedding :=
      generateEmbedding provider (r.name ++ " " ++ r.description ++ " " ++ r.categories)
  , target_tags_embedding := generateEmbedding provider r.targetTags
  , use_context_embedding := generateEmbedding provider r.useContext }

/-- Effect of the five-column `UPDATE ... WHERE id = $6` on one row: the
matching row has all five embedding columns overwritten, all other rows are
untouched. -/
def updateRow (u : EmbeddingUpdate) (r : ProductRow) : ProductRow :=
  if r.id = u.id then
    { r with emb :=
      { description_embedding := some u.description_embedding
      , category_embedding := some u.category_embedding
      , combined_embedding := some u.combined_embedding
      , target_tags_embedding := some u.target_tags_embedding
      , use_context_embedding := some u.use_context_embedding } }
  else r

/-- Effect of the five-column `UPDATE` on the whole table. -/
def applyUpdate (st : List ProductRow) (u : EmbeddingUpdate) : List ProductRow :=
  st.map (updateRow u)

/-- One iteration of the `populateEmbeddings` loop: a scan error or an
update-execution error skips the record (`continue`), otherwise the
computed update is applied. -/
def populateStep (provider : String → Except Unit (List ℚ))
    (scanF updF : ProductRow → Bool) (st : List ProductRow) (r : ProductRow) :
    List ProductRow :=
  if scanF r then st
  else if updF r then st
  else applyUpdate st (populateRecordUpdate provider r)

/-- Model of `populateEmbeddings`: fails when the store handle is nil or the
initial selection query errors; otherwise iterates over the snapshot of
records whose `combined_embedding` is null, writing back five freshly
computed embedding columns for each record that scans and updates cleanly. -/
def populateEmbeddings (dbConfigured qFails : Bool)
    (provider : String → Except Unit (List ℚ)) (scanF updF : ProductRow → Bool)
    (rows : List ProductRow) : Except Unit (List ProductRow) :=
  if dbConfigured = false then Except.error ()
  else if qFails then Except.error ()
  else
    Except.ok
      ((rows.filter fun r => r.emb.combined_embedding.isNone).foldl
        (populateStep provider scanF updF) rows)

/-- Modelled from the spec: the `EmbeddingJob` message of one Notifier event
(the sync worker `embedding_worker.py` is not among the sources); it carries
the id and the raw text fields of the changed record. -/
structure EmbeddingJob where
  id : String
  name : String
  description : String
  categories : String
  targetTags : List String
  useContext : List String
deriving DecidableEq

/-- Join a list of tags with single spaces, as `array_to_string(xs, ' ')`
does in the notification payload. -/
def spaceJoin : List String → String
  | [] => ""
  | [x] => x
  | x :: xs => x ++ " " ++ spaceJoin xs

/-- The five text variants of one job, by column. -/
structure JobVariants where
  descriptionText : String
  categoryText : String
  combinedText : String
  targetTagsText : String
  useContextText : String
deriving DecidableEq

/-- Modelled from the spec: the worker derives five text variants — raw
description, raw category string, name + description + categories joined by
single spaces, space-joined target tags, space-joined use-context tags. -/
def deriveVariants (j : EmbeddingJob) : JobVariants :=
  { descriptionText := j.description
  , categoryText := j.categories
  , combinedText := j.name ++ " " ++ j.description ++ " " ++ j.categories
  , targetTagsText := spaceJoin j.targetTags
  , useContextText := spaceJoin j.useContext }

/-- A partial write-back: only the successfully computed columns are set. -/
structure PartialUpdate where
  description_embedding : Option (List ℚ)
  category_embedding : Option (List ℚ)
  combined_embedding : Option (List ℚ)
  target_tags_embedding : Option (List ℚ)
  use_context_embedding : Option (List ℚ)
deriving DecidableEq

/-- The write-back carrying no column at all (every variant failed). -/
def emptyPartialUpdate : PartialUpdate :=
  { description_embedding := none
  , category_embedding := none
  , combined_embedding := none
  , target_tags_embedding := none
  , use_context_embedding := none }

/-- Modelled from the spec: the worker calls the provider once per variant;
each call is independent, a failed call simply leaves its column out of the
write-back. -/
def processEmbeddingJob (provider : String → Except Unit (List ℚ)) (j : EmbeddingJob) :
    PartialUpdate :=
  let v := deriveVariants j
  { description_embedding := (provider v.descriptionText).toOption
  , category_embedding := (provider v.categoryText).toOption
  , combined_embedding := (provider v.combinedText).toOption
  , target_tags_embedding := (provider v.targetTagsText).toOption
  , use_context_embedding := (provider v.useContextText).toOption }

/-- Overwrite one column when the write-back carries it, keep the stored
value otherwise. -/
def mergeCol (uo eo : Option (List ℚ)) : Option (List ℚ) :=
  match uo with
  | some v => some v
  | none => eo

/-- Apply a partial write-back to a stored embedding set: only the carried
columns are overwritten. -/
def mergeEmbeddingSet (e : EmbeddingSet) (u : PartialUpdate) : EmbeddingSet :=
  { description_embedding := mergeCol u.description_embedding e.description_embedding
  , category_embedding := mergeCol u.category_embedding e.category_embedding
  , combined_embedding := mergeCol u.combined_embedding e.combined_embedding
  , target_tags_embedding := mergeCol u.target_tags_embedding e.target_tags_embedding
  , use_context_embedding := mergeCol u.use_context_embedding e.use_context_embedding }

/-- Modelled from the spec: processing one job end to end — derive variants,
call the provider per variant, and perform a single write-back setting only
the successfully computed columns of the targeted record; when zero variants
succeed no write occurs at all. -/
def runJob (provider : String → Except Unit (List ℚ)) (st : List ProductRow)
    (j : EmbeddingJob) : List ProductRow :=
  let u := processEmbeddingJob provider j
  if u = emptyPartialUpdate then st
  else st.map fun r => if r.id = j.id then { r with emb := mergeEmbeddingSet r.emb u } else r

/-- A stored vector is absent or has exactly 768 components. -/
def vecOK : Option (List ℚ) → Prop
  | none => True
  | some v => v.length = 768

/-- A trivial distance operator used for concrete evaluations. -/
def distZero : List ℚ → List ℚ → ℚ := fun _ _ => 0

/-- A provider whose every call fails (the embedding service unreachable). -/
def failProvider : String → Except Unit (List ℚ) := fun _ => Except.error ()

/-- A provider answering every call with the empty vector. -/
def okProvider : String → Except Unit (List ℚ) := fun _ => Except.ok []

/-- A provider answering every call with a one-component vector. -/
def okProvider1 : String → Except Unit (List ℚ) := fun _ => Except.ok [1]

/-- A scan/update oracle that never fails. -/
def noFail : ProductRow → Bool := fun _ => false

/-- A sample decoded product used in concrete environments. -/
def sampleProduct : Product :=
  { id := "x"
  , name := "X"
  , description := ""
  , picture := ""
  , currencyCode := "USD"
  , units := 1
  , nanos := 0
  , categories := []
  , targetTags := []
  , useContext := [] }

/-- A concrete environment whose store handle was never configured. -/
def envNoDb : Env :=
  { dbConfigured := false
  , provider := failProvider
  , rows := []
  , dist := distZero
  , queryFails := false
  , scanFails := fun _ => false
  , rowsErr := false
  , lexical := fun _ => [] }

/-- A concrete environment in which everything works up to row iteration,
which then reports an error. -/
def envRowsErr : Env :=
  { dbConfigured := true
  , provider := okProvider
  , rows := []
  , dist := distZero
  , queryFails := false
  , scanFails := fun _ => false
  , rowsErr := true
  , lexical := fun _ => [] }

/-- A concrete environment in which the full semantic path succeeds. -/
def envSem : Env :=
  { dbConfigured := true
  , provider := okProvider
  , rows := []
  , dist := distZero
  , queryFails := false
  , scanFails := fun _ => false
  , rowsErr := false
  , lexical := fun _ => [] }

/-- An unconfigured-store environment whose lexical search returns two
records. -/
def envLex2 : Env := { envNoDb with lexical := fun _ => [sampleProduct, sampleProduct] }

/-- An unconfigured-store environment whose lexical search returns 51
records. -/
def envLex51 : Env := { envNoDb with lexical := fun _ => List.replicate 51 sampleProduct }

/-- A concrete catalog row with no embeddings yet. -/
def c4row : ProductRow :=
  { id := "p1"
  , name := "n"
  , description := "d"
  , picture := ""
  , priceCurrencyCode := "USD"
  , priceUnits := 1
  , priceNanos := 0
  , categories := "c"
  , targetTags := "t"
  , useContext := "u"
  , emb := emptyEmbeddingSet }

/-- A concrete catalog row whose combined embedding is present. -/
def c1row : ProductRow :=
  { id := "p2"
  , name := "Chair"
  , description := "comfy"
  , picture := ""
  , priceCurrencyCode := "USD"
  , priceUnits := 1
  , priceNanos := 0
  , categories := "furniture"
  , targetTags := ""
  , useContext := ""
  , emb := { emptyEmbeddingSet with combined_embedding := some [] } }

/-- A concrete embedding job. -/
def c8job : EmbeddingJob :=
  { id := "p1"
  , name := "Chair"
  , description := "soft"
  , categories := "furniture"
  , targetTags := ["cozy", "seat"]
  , useContext := ["living room"] }

/-- Every column of an embedding set is absent or fully populated with 768
components. -/
def embSetOK (e : EmbeddingSet) : Prop :=
  vecOK e.description_embedding ∧ vecOK e.category_embedding ∧
    vecOK e.combined_embedding ∧ vecOK e.target_tags_embedding ∧
    vecOK e.use_context_embedding

/-- Each component of the fallback vector at a valid index comes from the
word at that index, or is zero past the end of the word list. -/
lemma fallbackEmbedding_getElem (t : String) (i : ℕ) (h : i < 768) :
    (fallbackEmbedding t)[i]? =
      some (match (goFields (goToLower t))[i]? with
            | some w => hashComponent w
            | none => 0) := by
  unfold fallbackEmbedding
  simp [List.getElem?_map, List.getElem?_range h]

/-- The fallback vector always has exactly 768 components. -/
lemma fallbackEmbedding_length (t : String) : (fallbackEmbedding t).length = 768 := by
  unfold fallbackEmbedding
  simp

/-- When the provider honours its `vector[768]` contract, every embedding
`generateEmbedding` returns has exactly 768 components. -/
lemma generateEmbedding_length (provider : String → Except Unit (List ℚ))
    (hP : ∀ t v, provider t = Except.ok v → v.length = 768) (t : String) :
    (generateEmbedding provider t).length = 768 := by
  unfold generateEmbedding
  cases h : provider t with
  | ok e => exact hP t e h
  | error e => exact fallbackEmbedding_length t

/-- Claim C10: the hash-based fallback of `generateEmbedding` is
deterministic (equal texts give equal vectors), always returns exactly 768
components, component `i` depends only on the `i`-th word of the lower-cased
text, and components beyond the word count are zero. -/
theorem fallbackEmbedding_componentwise :
    (∀ t t', t = t' → fallbackEmbedding t = fallbackEmbedding t') ∧
    (∀ t, (fallbackEmbedding t).length = 768) ∧
    (∀ t t' (i : ℕ), i < 768 →
      (goFields (goToLower t))[i]? = (goFields (goToLower t'))[i]? →
      (fallbackEmbedding t)[i]? = (fallbackEmbedding t')[i]?) ∧
    (∀ t (i : ℕ), i < 768 → (goFields (goToLower t)).length ≤ i →
      (fallbackEmbedding t)[i]? = some 0) := by
  refine ⟨fun t t' h => h ▸ rfl, fallbackEmbedding_length, ?_, ?_⟩
  · intro t t' i hi hw
    rw [fallbackEmbedding_getElem t i hi, fallbackEmbedding_getElem t' i hi, hw]
  · intro t i hi hlen
    rw [fallbackEmbedding_getElem t i hi, List.getElem?_eq_none hlen]

/-- Witness for C10 at concrete texts sharing their first word after
lower-casing. -/
theorem fallbackEmbedding_componentwise_witness :
    ((0 : ℕ) < 768 ∧
      (goFields (goToLower "Cozy Chair"))[0]? = (goFields (goToLower "cozy sofa"))[0]?) ∧
    (fallbackEmbedding "Cozy Chair")[0]? = (fallbackEmbedding "cozy sofa")[0]? :=
  ⟨⟨by decide, by decide⟩,
    fallbackEmbedding_componentwise.2.2.1 "Cozy Chair" "cozy sofa" 0 (by decide) (by decide)⟩

/-- A row rewritten by the five-column update satisfies the dimension
invariant whenever the provider honours its contract; an unmatched row is
returned unchanged. -/
lemma embSetOK_updateRow (provider : String → Except Unit (List ℚ))
    (hP : ∀ t v, provider t = Except.ok v → v.length = 768)
    (r x : ProductRow) (hx : embSetOK x.emb) :
    embSetOK (updateRow (populateRecordUpdate provider r) x).emb := by
  unfold updateRow
  split
  · exact ⟨generateEmbedding_length provider hP _, generateEmbedding_length provider hP _,
      generateEmbedding_length provider hP _, generateEmbedding_length provider hP _,
      generateEmbedding_length provider hP _⟩
  · exact hx

/-- The `populateEmbeddings` loop preserves the dimension invariant of the
whole table. -/
lemma populate_foldl_inv (provider : String → Except Unit (List ℚ))
    (hP : ∀ t v, provider t = Except.ok v → v.length = 768)
    (scanF updF : ProductRow → Bool) :
    ∀ (pend st : List ProductRow), (∀ r ∈ st, embSetOK r.emb) →
      ∀ r ∈ pend.foldl (populateStep provider scanF updF) st, embSetOK r.emb := by
  intro pend
  induction pend with
  | nil => intro st h r hr; exact h r hr
  | cons p ps ih =>
    intro st h r hr
    rw [List.foldl_cons] at hr
    refine ih (populateStep provider scanF updF st p) ?_ r hr
    intro x hx
    unfold populateStep at hx
    split at hx
    · exact h x hx
    · split at hx
      · exact h x hx
      · unfold applyUpdate at hx
        obtain ⟨y, hy, rfl⟩ := List.mem_map.1 hx
        exact embSetOK_updateRow provider hP p y (h y hy)

/-- A merged column is well-dimensioned when the incoming column comes from a
contract-honouring provider call and the stored one was well-dimensioned. -/
lemma vecOK_mergeCol (provider : String → Except Unit (List ℚ))
    (hP : ∀ t v, provider t = Except.ok v → v.length = 768)
    (t : String) (eo : Option (List ℚ)) (he : vecOK eo) :
    vecOK (mergeCol (provider t).toOption eo) := by
  cases h : provider t with
  | ok v => simpa [mergeCol, Except.toOption, h, vecOK] using hP t v h
  | error e => simpa [mergeCol, Except.toOption, h] using he

/-- Claim C9: a stored vector is fully populated with exactly 768 components
or entirely absent.  Under the provider contract `embed(text) → vector[768]`,
`generateEmbedding` always returns 768 components, and both write-back
operations of the subsystem (the batch `populateEmbeddings` and the worker's
per-job write-back) preserve the all-or-nothing dimension invariant of every
embedding column of every record. -/
theorem embedding_dimension_invariant (provider : String → Except Unit (List ℚ))
    (hP : ∀ t v, provider t = Except.ok v → v.length = 768) :
    (∀ t, (generateEmbedding provider t).length = 768) ∧
    (∀ (dbC qF : Bool) (scanF updF : ProductRow → Bool) (rows out : List ProductRow),
      (∀ r ∈ rows, embSetOK r.emb) →
      populateEmbeddings dbC qF provider scanF updF rows = Except.ok out →
      ∀ r ∈ out, embSetOK r.emb) ∧
    (∀ (st : List ProductRow) (j : EmbeddingJob),
      (∀ r ∈ st, embSetOK r.emb) → ∀ r ∈ runJob provider st j, embSetOK r.emb) := by
  refine ⟨generateEmbedding_length provider hP, ?_, ?_⟩
  · intro dbC qF scanF updF rows out hrows heq
    unfold populateEmbeddings at heq
    split at heq
    · exact absurd heq (by simp)
    · split at heq
      · exact absurd heq (by simp)
      · obtain rfl : _ = out := Except.ok.inj heq
        exact populate_foldl_inv provider hP scanF updF _ rows hrows
  · intro st j hst r hr
    simp only [runJob] at hr
    split at hr
    · exact hst r hr
    · obtain ⟨y, hy, rfl⟩ := List.mem_map.1 hr
      split
      · obtain ⟨h1, h2, h3, h4, h5⟩ := hst y hy
        exact ⟨vecOK_mergeCol provider hP _ _ h1, vecOK_mergeCol provider hP _ _ h2,
          vecOK_mergeCol provider hP _ _ h3, vecOK_mergeCol provider hP _ _ h4,
          vecOK_mergeCol provider hP _ _ h5⟩
      · exact hst y hy

/-- Witness for C9: with an unreachable provider (contract vacuously true)
the embedding computed for a concrete text still has 768 components. -/
theorem embedding_dimension_invariant_witness :
    (∀ t v, failProvider t = Except.ok v → v.length = 768) ∧
    (generateEmbedding failProvider "reading chair").length = 768 :=
  ⟨fun t v h => Except.noConfusion h,
    (embedding_dimension_invariant failProvider (fun t v h => Except.noConfusion h)).1
      "reading chair"⟩

/-- Rewriting a row twice with the same five-column update equals rewriting
it once: the update overwrites all five columns with values that do not
depend on the previous state. -/
lemma updateRow_idem (u : EmbeddingUpdate) (x : ProductRow) :
    updateRow u (updateRow u x) = updateRow u x := by
  by_cases h : x.id = u.id <;> simp [updateRow, h]

/-- Applying the same five-column update to the table twice equals applying
it once. -/
lemma applyUpdate_idem (st : List ProductRow) (u : EmbeddingUpdate) :
    applyUpdate (applyUpdate st u) u = applyUpdate st u := by
  unfold applyUpdate
  induction st with
  | nil => rfl
  | cons a l ih => simp only [List.map_cons, updateRow_idem]; rw [ih]

/-- Overwriting a column twice with the same carried value equals
overwriting it once. -/
lemma mergeCol_idem (uo eo : Option (List ℚ)) :
    mergeCol uo (mergeCol uo eo) = mergeCol uo eo := by
  cases uo <;> rfl

/-- Merging the same partial write-back twice equals merging it once. -/
lemma mergeEmbeddingSet_idem (e : EmbeddingSet) (u : PartialUpdate) :
    mergeEmbeddingSet (mergeEmbeddingSet e u) u = mergeEmbeddingSet e u := by
  simp [mergeEmbeddingSet, mergeCol_idem]

/-- Claim C7: processing the same embedding job twice (duplicate delivery)
leaves the stored embedding columns identical to processing it once — both
for the in-source batch write-back (`populateEmbeddings` loop body, whose
prepared update overwrites all five columns of the record) and for the
worker's per-job partial write-back. -/
theorem duplicate_delivery_idempotent :
    (∀ (provider : String → Except Unit (List ℚ)) (r : ProductRow) (st : List ProductRow),
      applyUpdate (applyUpdate st (populateRecordUpdate provider r))
          (populateRecordUpdate provider r)
        = applyUpdate st (populateRecordUpdate provider r)) ∧
    (∀ (provider : String → Except Unit (List ℚ)) (st : List ProductRow) (j : EmbeddingJob),
      runJob provider (runJob provider st j) j = runJob provider st j) := by
  constructor
  · intro provider r st
    exact applyUpdate_idem st (populateRecordUpdate provider r)
  · intro provider st j
    by_cases h : processEmbeddingJob provider j = emptyPartialUpdate
    · simp [runJob, h]
    · simp only [runJob, h, ite_false]
      rw [List.map_map]
      refine List.map_congr_left ?_
      intro a _
      show (fun r => if r.id = j.id then _ else r)
          ((fun r => if r.id = j.id then _ else r) a) = _
      by_cases ha : a.id = j.id <;> simp [ha, mergeEmbeddingSet_idem]

/-- Claim C1: the ranking step keeps exactly the rows whose combined vector
is non-null, scores each kept row with
`0.6·dist(combined,q) + 0.2·dist(target_tags,q) + 0.2·dist(use_context,q)`
where an absent target-tags or use-context vector contributes the worst-case
distance 1 at its weight instead of excluding the row, orders the result
ascending by score, and truncates it to the limit. -/
theorem ranking_step_spec (dist : List ℚ → List ℚ → ℚ) (rows : List ProductRow)
    (q : List ℚ) (limit : ℕ) :
    (∀ pr ∈ rankRows dist rows q limit,
      ∃ v, pr.1.emb.combined_embedding = some v ∧
        pr.2 = (0.6 : ℚ) * dist v q +
          (0.2 : ℚ) * coalesceDist dist q pr.1.emb.target_tags_embedding +
          (0.2 : ℚ) * coalesceDist dist q pr.1.emb.use_context_embedding) ∧
    (∀ w, coalesceDist dist q (some w) = dist w q) ∧ coalesceDist dist q none = 1 ∧
    List.Sorted (fun a b : ProductRow × ℚ => a.2 ≤ b.2) (rankRows dist rows q limit) ∧
    (rankRows dist rows q limit).length =
      min limit ((rows.filter fun r => r.emb.combined_embedding.isSome).length) ∧
    ∃ rest,
      (rankRows dist rows q limit ++ rest).Perm
        ((rows.filter fun r => r.emb.combined_embedding.isSome).map
          fun r => (r, rowScore dist q r)) := by
  have hperm :=
    List.perm_insertionSort (fun a b : ProductRow × ℚ => a.2 ≤ b.2)
      ((rows.filter fun r => r.emb.combined_embedding.isSome).map
        fun r => (r, rowScore dist q r))
  refine ⟨?_, fun w => rfl, rfl, ?_, ?_, ?_⟩
  · intro pr hpr
    have h1 : pr ∈ (rows.filter fun r => r.emb.combined_embedding.isSome).map
        fun r => (r, rowScore dist q r) :=
      hperm.subset ((List.take_sublist _ _).subset hpr)
    obtain ⟨r, hrmem, heq⟩ := List.mem_map.1 h1
    subst heq
    have hsome : r.emb.combined_embedding.isSome := by
      simpa using (List.mem_filter.1 hrmem).2
    obtain ⟨v, hv⟩ := Option.isSome_iff_exists.1 hsome
    refine ⟨v, hv, ?_⟩
    show rowScore dist q r = _
    unfold rowScore
    rw [hv]
    simp only [coalesceDist]
    ring
  · letI : IsTotal (ProductRow × ℚ) (fun a b => a.2 ≤ b.2) := ⟨fun a b => le_total a.2 b.2⟩
    letI : IsTrans (ProductRow × ℚ) (fun a b => a.2 ≤ b.2) :=
      ⟨fun _ _ _ hab hbc => le_trans hab hbc⟩
    exact List.Pairwise.sublist (List.take_sublist _ _) (List.sorted_insertionSort _ _)
  · unfold rankRows
    rw [List.length_take, hperm.length_eq, List.length_map]
  · refine ⟨(((rows.filter fun r => r.emb.combined_embedding.isSome).map
        fun r => (r, rowScore dist q r)).insertionSort
          fun a b : ProductRow × ℚ => a.2 ≤ b.2).drop limit, ?_⟩
    unfold rankRows
    rw [List.take_append_drop]
    exact hperm

/-- Witness for C1 on a one-row table. -/
theorem ranking_step_spec_witness :
    (c1row, rowScore distZero [] c1row) ∈ rankRows distZero [c1row] [] 1 ∧
    ∃ v, c1row.emb.combined_embedding = some v ∧
      (c1row, rowScore distZero [] c1row).2 = (0.6 : ℚ) * distZero v [] +
        (0.2 : ℚ) * coalesceDist distZero [] c1row.emb.target_tags_embedding +
        (0.2 : ℚ) * coalesceDist distZero [] c1row.emb.use_context_embedding := by
  have hm : (c1row, rowScore distZero [] c1row) ∈ rankRows distZero [c1row] [] 1 :=
    List.mem_singleton.mpr rfl
  exact ⟨hm, (ranking_step_spec distZero [c1row] [] 1).1 _ hm⟩

/-- Claim C2: whenever the store was never configured, or the provider call
for the query fails, or the ranking query itself errors,
`SemanticSearchProducts` returns exactly the response of the lexical
`SearchProducts` on the same query string, reporting no error. -/
theorem fallback_equivalence (env : Env) (r : SemanticSearchRequest)
    (h : env.dbConfigured = false ∨ (∃ e, env.provider r.query = Except.error e) ∨
      env.queryFails = true) :
    semanticSearchProducts env (some r) = Except.ok (searchProducts env r.query) := by
  unfold semanticSearchProducts
  rcases h with h | ⟨e, he⟩ | h
  · simp [h]
  · by_cases hdb : env.dbConfigured = false
    · simp [hdb]
    · simp [hdb, he]
  · by_cases hdb : env.dbConfigured = false
    · simp [hdb]
    · cases hp : env.provider r.query with
      | error e => simp [hdb, hp]
      | ok qe => simp [hdb, hp, h]

/-- Witness for C2 on a concrete unconfigured-store environment. -/
theorem fallback_equivalence_witness :
    (envNoDb.dbConfigured = false ∨ (∃ e, envNoDb.provider "chair" = Except.error e) ∨
      envNoDb.queryFails = true) ∧
    semanticSearchProducts envNoDb (some { query := "chair", limit := 5 }) =
      Except.ok (searchProducts envNoDb "chair") :=
  ⟨Or.inl rfl, fallback_equivalence envNoDb { query := "chair", limit := 5 } (Or.inl rfl)⟩

/-- Claim C3 counterexample: a well-formed (non-nil) request on which
`SemanticSearchProducts` nevertheless raises a hard internal error, because
row iteration reports an error after the ranking query succeeded. -/
theorem hard_error_iff_malformed_cex :
    (some { query := "q", limit := 5 } : Option SemanticSearchRequest) ≠ none ∧
    semanticSearchProducts envRowsErr (some { query := "q", limit := 5 }) =
      Except.error GrpcCode.internal :=
  ⟨Option.some_ne_none _, rfl⟩

/-- Claim C3 amended: `SemanticSearchProducts` raises a hard error exactly
when the request is nil (invalid argument) or when row iteration reports an
error after a successfully submitted ranking query (internal); an
unconfigured store, a provider failure or a ranking-query submission failure
fall back to lexical search, and rows that fail to scan are skipped. -/
theorem hard_error_characterisation (env : Env) (req : Option SemanticSearchRequest) :
    (∃ e, semanticSearchProducts env req = Except.error e) ↔
      (req = none ∨ ∃ r qv, req = some r ∧ env.dbConfigured = true ∧
        env.provider r.query = Except.ok qv ∧ env.queryFails = false ∧
        env.rowsErr = true) := by
  cases req with
  | none => exact iff_of_true ⟨GrpcCode.invalidArgument, rfl⟩ (Or.inl rfl)
  | some r =>
    constructor
    · intro ⟨e, he⟩
      simp only [semanticSearchProducts] at he
      by_cases hdb : env.dbConfigured = false
      · simp [hdb] at he
      · rw [if_neg hdb] at he
        have hdb' : env.dbConfigured = true := by
          revert hdb; cases env.dbConfigured <;> simp
        cases hp : env.provider r.query with
        | error e2 => rw [hp] at he; simp at he
        | ok qv =>
          rw [hp] at he
          by_cases hqf : env.queryFails = true
          · simp [hqf] at he
          · have hqf' : env.queryFails = false := by
              revert hqf; cases env.queryFails <;> simp
            rw [hqf'] at he
            simp only [Bool.false_eq_true, if_false, ite_false] at he
            by_cases hre : env.rowsErr = true
            · exact Or.inr ⟨r, qv, rfl, hdb', hp, hqf', hre⟩
            · have hre' : env.rowsErr = false := by
                revert hre; cases env.rowsErr <;> simp
              rw [hre'] at he
              simp at he
    · intro h
      rcases h with h | ⟨r', qv, hr, hdb, hp, hqf, hre⟩
      · exact absurd h (Option.some_ne_none r)
      · obtain rfl : r' = r := by injection hr with h'; exact h'.symm
        refine ⟨GrpcCode.internal, ?_⟩
        simp only [semanticSearchProducts]
        rw [if_neg (by simp [hdb]), hp, hqf]
        simp [hre]

/-- Witness for the amended C3 at a concrete environment whose row iteration
fails. -/
theorem hard_error_characterisation_witness :
    ∃ e, semanticSearchProducts envRowsErr (some { query := "w", limit := 3 }) =
      Except.error e :=
  (hard_error_characterisation envRowsErr (some { query := "w", limit := 3 })).mpr
    (Or.inr ⟨{ query := "w", limit := 3 }, [], rfl, rfl, rfl, rfl, rfl⟩)

/-- Claim C4 counterexample: with a provider that fails on every call (zero
variants succeed), processing a record still performs a write-back — the
table is not left untouched, contradicting the claim that zero successes
mean no write and that a failed variant's column is never overwritten. -/
theorem untouched_on_failure_cex :
    (∀ t, failProvider t = Except.error ()) ∧
    populateEmbeddings true false failProvider noFail noFail [c4row] ≠
      Except.ok [c4row] := by
  refine ⟨fun t => rfl, ?_⟩
  intro h
  simp [populateEmbeddings, populateStep, applyUpdate, updateRow, populateRecordUpdate,
    noFail, c4row, emptyEmbeddingSet] at h

/-- Claim C4 amended: a failed provider call does not leave the variant's
stored column untouched — `generateEmbedding` substitutes the deterministic
hash-based fallback vector, the remaining variants are still processed, and
the single write-back sets all five columns of the matched record (it occurs
even when zero provider calls succeed), leaving every other record
unchanged; only a scan or update-execution error skips the write. -/
theorem untouched_on_failure_amended (provider : String → Except Unit (List ℚ))
    (r x : ProductRow) :
    (x.id = r.id →
      updateRow (populateRecordUpdate provider r) x = { x with emb :=
        { description_embedding := some (generateEmbedding provider r.description)
        , category_embedding := some (generateEmbedding provider r.categories)
        , combined_embedding := some (generateEmbedding provider
            (r.name ++ " " ++ r.description ++ " " ++ r.categories))
        , target_tags_embedding := some (generateEmbedding provider r.targetTags)
        , use_context_embedding := some (generateEmbedding provider r.useContext) } }) ∧
    (x.id ≠ r.id → updateRow (populateRecordUpdate provider r) x = x) ∧
    (∀ t, provider t = Except.error () → generateEmbedding provider t = fallbackEmbedding t) ∧
    (∀ t v, provider t = Except.ok v → generateEmbedding provider t = v) ∧
    (∀ (scanF updF : ProductRow → Bool) (st : List ProductRow),
      scanF r = false → updF r = false →
      populateStep provider scanF updF st r =
        applyUpdate st (populateRecordUpdate provider r)) := by
  refine ⟨?_, ?_, ?_, ?_, ?_⟩
  · intro hx
    simp [updateRow, populateRecordUpdate, hx]
  · intro hx
    simp [updateRow, populateRecordUpdate, hx]
  · intro t ht
    simp [generateEmbedding, ht]
  · intro t v ht
    simp [generateEmbedding, ht]
  · intro scanF updF st hs hu
    simp [populateStep, hs, hu]

/-- Witness for the amended C4 with an always-failing provider on a concrete
record: the write still happens, every column carrying the fallback
vector. -/
theorem untouched_on_failure_amended_witness :
    (c4row.id = c4row.id ∧ failProvider c4row.description = Except.error ()) ∧
    updateRow (populateRecordUpdate failProvider c4row) c4row = { c4row with emb :=
      { description_embedding := some (generateEmbedding failProvider c4row.description)
      , category_embedding := some (generateEmbedding failProvider c4row.categories)
      , combined_embedding := some (generateEmbedding failProvider
          (c4row.name ++ " " ++ c4row.description ++ " " ++ c4row.categories))
      , target_tags_embedding := some (generateEmbedding failProvider c4row.targetTags)
      , use_context_embedding := some (generateEmbedding failProvider c4row.useContext) } } ∧
    generateEmbedding failProvider c4row.description = fallbackEmbedding c4row.description :=
  ⟨⟨rfl, rfl⟩,
    (untouched_on_failure_amended failProvider c4row c4row).1 rfl,
    (untouched_on_failure_amended failProvider c4row c4row).2.2.1 c4row.description rfl⟩

/-- The normalised limit is always at least 1. -/
lemma effectiveLimit_pos (l : Int) : 1 ≤ effectiveLimit l := by
  unfold effectiveLimit
  split <;> omega

/-- The normalised limit never exceeds 50. -/
lemma effectiveLimit_le_50 (l : Int) : effectiveLimit l ≤ 50 := by
  unfold effectiveLimit
  split <;> omega

/-- For a positive requested limit the normalised limit never exceeds it. -/
lemma effectiveLimit_le (l : Int) (h : 0 < l) : effectiveLimit l ≤ l := by
  unfold effectiveLimit
  split <;> omega

/-- The ranking result never holds more rows than the limit passed to it. -/
lemma rankRows_length_le (dist : List ℚ → List ℚ → ℚ) (rows : List ProductRow)
    (q : List ℚ) (limit : ℕ) : (rankRows dist rows q limit).length ≤ limit := by
  unfold rankRows
  exact List.length_take_le _ _

/-- On the full semantic path the response is the decoded ranking result,
and it holds at most `effectiveLimit` many records. -/
lemma semantic_path_response (env : Env) (r : SemanticSearchRequest) (qv : List ℚ)
    (hdb : env.dbConfigured = true) (hp : env.provider r.query = Except.ok qv)
    (hqf : env.queryFails = false) (hre : env.rowsErr = false) :
    ∃ res, semanticSearchProducts env (some r) = Except.ok res ∧
      res.results.length ≤ (effectiveLimit r.limit).toNat := by
  simp only [semanticSearchProducts]
  rw [if_neg (by simp [hdb]), hp, hqf]
  simp only [Bool.false_eq_true, if_false, ite_false, hre]
  refine ⟨_, rfl, ?_⟩
  calc (((rankRows env.dist env.rows (roundVec6 qv)
          (effectiveLimit r.limit).toNat).filter
            fun pr => env.scanFails pr.1 = false).map fun pr => decodeRow pr.1).length
      = ((rankRows env.dist env.rows (roundVec6 qv)
          (effectiveLimit r.limit).toNat).filter
            fun pr => env.scanFails pr.1 = false).length := List.length_map _ _
    _ ≤ (rankRows env.dist env.rows (roundVec6 qv)
          (effectiveLimit r.limit).toNat).length := List.length_filter_le _ _
    _ ≤ (effectiveLimit r.limit).toNat := rankRows_length_le _ _ _ _

/-- Claim C5 counterexample: with the store unconfigured, a request with the
positive limit 1 is answered through the lexical fallback with 2 records —
the fallback path does not truncate to the limit. -/
theorem response_within_limit_cex :
    (0 : Int) < 1 ∧
    semanticSearchProducts envLex2 (some { query := "q", limit := 1 }) =
      Except.ok { results := [sampleProduct, sampleProduct] } ∧
    ¬ (([sampleProduct, sampleProduct].length : Int) ≤ 1) :=
  ⟨by decide, rfl, by decide⟩

/-- Claim C5 amended: every response produced via the semantic ranking path
holds at most `limit` records for every positive requested limit; responses
produced via the lexical fallback are the unmodified lexical result set and
are not truncated to the limit. -/
theorem response_within_limit_amended (env : Env) (r : SemanticSearchRequest)
    (qv : List ℚ) (hlim : 0 < r.limit) (hdb : env.dbConfigured = true)
    (hp : env.provider r.query = Except.ok qv) (hqf : env.queryFails = false)
    (hre : env.rowsErr = false) :
    ∃ res, semanticSearchProducts env (some r) = Except.ok res ∧
      (res.results.length : Int) ≤ r.limit := by
  obtain ⟨res, hres, hlen⟩ := semantic_path_response env r qv hdb hp hqf hre
  refine ⟨res, hres, ?_⟩
  have h1 : ((effectiveLimit r.limit).toNat : Int) = effectiveLimit r.limit :=
    Int.toNat_of_nonneg (by have := effectiveLimit_pos r.limit; omega)
  have h2 := effectiveLimit_le r.limit hlim
  have h3 : (res.results.length : Int) ≤ ((effectiveLimit r.limit).toNat : Int) := by
    exact_mod_cast hlen
  omega

/-- Witness for the amended C5 on a concrete working semantic path. -/
theorem response_within_limit_amended_witness :
    ((0 : Int) < 5 ∧ envSem.dbConfigured = true ∧ envSem.provider "q" = Except.ok [] ∧
      envSem.queryFails = false ∧ envSem.rowsErr = false) ∧
    ∃ res, semanticSearchProducts envSem (some { query := "q", limit := 5 }) =
      Except.ok res ∧ (res.results.length : Int) ≤ 5 :=
  ⟨⟨by decide, rfl, rfl, rfl, rfl⟩,
    response_within_limit_amended envSem { query := "q", limit := 5 } []
      (by decide) rfl rfl rfl rfl⟩

/-- Claim C6 counterexample: a call with limit 1000 answered through the
lexical fallback returns 51 records, more than the configured ceiling of
50. -/
theorem limit_clamp_cex :
    semanticSearchProducts envLex51 (some { query := "q", limit := 1000 }) =
      Except.ok { results := List.replicate 51 sampleProduct } ∧
    ¬ ((List.replicate 51 sampleProduct).length ≤ 50) :=
  ⟨rfl, by simp⟩

/-- Claim C6 amended: the limit applied to the ranking query is always
between 1 and 50, a non-positive limit is replaced by the standard page
size 10, and a call with limit 1000 that executes the ranking query returns
at most 50 records; a fallback response is not truncated by the limit. -/
theorem limit_clamp_amended :
    (∀ l : Int, 1 ≤ effectiveLimit l ∧ effectiveLimit l ≤ 50) ∧
    (∀ l : Int, l ≤ 0 → effectiveLimit l = 10) ∧
    (∀ (env : Env) (q : String) (qv : List ℚ),
      env.dbConfigured = true → env.provider q = Except.ok qv →
      env.queryFails = false → env.rowsErr = false →
      ∃ res, semanticSearchProducts env (some { query := q, limit := 1000 }) =
        Except.ok res ∧ res.results.length ≤ 50) := by
  refine ⟨fun l => ⟨effectiveLimit_pos l, effectiveLimit_le_50 l⟩, ?_, ?_⟩
  · intro l hl
    unfold effectiveLimit
    rw [if_pos (Or.inl hl)]
  · intro env q qv hdb hp hqf hre
    obtain ⟨res, hres, hlen⟩ :=
      semantic_path_response env { query := q, limit := 1000 } qv hdb hp hqf hre
    have hproj : ({ query := q, limit := 1000 } : SemanticSearchRequest).limit = (1000 : Int) :=
      rfl
    rw [hproj] at hlen
    refine ⟨res, hres, le_trans hlen ?_⟩
    have h50 := effectiveLimit_le_50 (1000 : Int)
    have h1 := effectiveLimit_pos (1000 : Int)
    omega

/-- Witness for the amended C6 on a concrete working semantic path. -/
theorem limit_clamp_amended_witness :
    (envSem.dbConfigured = true ∧ envSem.provider "w" = Except.ok [] ∧
      envSem.queryFails = false ∧ envSem.rowsErr = false) ∧
    ∃ res, semanticSearchProducts envSem (some { query := "w", limit := 1000 }) =
      Except.ok res ∧ res.results.length ≤ 50 :=
  ⟨⟨rfl, rfl, rfl, rfl⟩, limit_clamp_amended.2.2 envSem "w" [] rfl rfl rfl rfl⟩

/-- Claim C8: for every processed job, the worker derives exactly five text
variants — the raw description, the raw category string, name + description
+ categories joined by single spaces, the space-joined target tags and the
space-joined use-context tags — embeds each of them, and performs a single
update that sets the five embedding columns of the targeted record, leaving
every other record unchanged.  Modelled from the spec (the worker source is
not part of the repository's sources); stated for jobs on which every
provider call succeeds, since a failed variant is left out of the
write-back. -/
theorem worker_variants_single_update (provider : String → Except Unit (List ℚ))
    (j : EmbeddingJob) (st : List ProductRow)
    (hok : ∀ t, ∃ v, provider t = Except.ok v) :
    ∃ vd vc vb vt vu,
      provider j.description = Except.ok vd ∧
      provider j.categories = Except.ok vc ∧
      provider (j.name ++ " " ++ j.description ++ " " ++ j.categories) = Except.ok vb ∧
      provider (spaceJoin j.targetTags) = Except.ok vt ∧
      provider (spaceJoin j.useContext) = Except.ok vu ∧
      runJob provider st j = st.map fun r =>
        if r.id = j.id then { r with emb :=
          { description_embedding := some vd
          , category_embedding := some vc
          , combined_embedding := some vb
          , target_tags_embedding := some vt
          , use_context_embedding := some vu } }
        else r := by
  obtain ⟨vd, hd⟩ := hok j.description
  obtain ⟨vc, hc⟩ := hok j.categories
  obtain ⟨vb, hb⟩ := hok (j.name ++ " " ++ j.description ++ " " ++ j.categories)
  obtain ⟨vt, ht⟩ := hok (spaceJoin j.targetTags)
  obtain ⟨vu, hu⟩ := hok (spaceJoin j.useContext)
  refine ⟨vd, vc, vb, vt, vu, hd, hc, hb, ht, hu, ?_⟩
  have hju : processEmbeddingJob provider j =
      { description_embedding := some vd
      , category_embedding := some vc
      , combined_embedding := some vb
      , target_tags_embedding := some vt
      , use_context_embedding := some vu } := by
    simp [processEmbeddingJob, deriveVariants, hd, hc, hb, ht, hu, Except.toOption]
  have hne : processEmbeddingJob provider j ≠ emptyPartialUpdate := by
    rw [hju]
    simp [emptyPartialUpdate]
  simp only [runJob, hne, ite_false, if_neg hne, hju]
  refine List.map_congr_left ?_
  intro a _
  by_cases ha : a.id = j.id <;> simp [ha, mergeEmbeddingSet, mergeCol]

/-- Witness for C8 on a concrete job and an all-succeeding provider. -/
theorem worker_variants_single_update_witness :
    (∀ t, ∃ v, okProvider1 t = Except.ok v) ∧
    ∃ vd vc vb vt vu,
      okProvider1 c8job.description = Except.ok vd ∧
      okProvider1 c8job.categories = Except.ok vc ∧
      okProvider1 (c8job.name ++ " " ++ c8job.description ++ " " ++ c8job.categories) =
        Except.ok vb ∧
      okProvider1 (spaceJoin c8job.targetTags) = Except.ok vt ∧
      okProvider1 (spaceJoin c8job.useContext) = Except.ok vu ∧
      runJob okProvider1 [] c8job = List.map (fun r =>
        if r.id = c8job.id then { r with emb :=
          { description_embedding := some vd
          , category_embedding := some vc
          , combined_embedding := some vb
          , target_tags_embedding := some vt
          , use_context_embedding := some vu } }
        else r) [] :=
  ⟨fun t => ⟨[1], rfl⟩,
    worker_variants_single_update okProvider1 c8job [] (fun t => ⟨[1], rfl⟩)⟩
